import Mathlib

/-!
Verification of the tendon-profile calculation core
(`src/services/calculationService.ts`).

The TypeScript core is a pure function of an `AppState` record.  JavaScript
numbers are modelled by exact rationals (`ℚ`); `Math.floor`, `Math.round`,
`toFixed`, and the `%` operator are modelled explicitly.  The free-text
`inflectionPt` field is modelled by what the code observes of the string:
whether it is empty, whether the trimmed text ends in `%`, and the result of
`parseFloat` (with `none` standing for `NaN`).
-/

namespace TendonProfile

/-- The unit system tag (`'metric' | 'imperial'` in `src/types`). -/
inductive Unit where
  | metric : Unit
  | imperial : Unit
deriving DecidableEq

/-- Abstraction of the free-text `inflectionPt` string.  `empty` stands for an
empty or all-whitespace string; `pct p` for a trimmed string ending in `%`
whose prefix parses (via `parseFloat`) to `p` (`none` = `NaN`); `abs v` for a
trimmed string not ending in `%` parsing to `v` (`none` = `NaN`). -/
inductive InflectionText where
  | empty : InflectionText
  | pct : Option ℚ → InflectionText
  | abs : Option ℚ → InflectionText
deriving DecidableEq

/-- The fields of `AppState` read by `calculateProfile`. -/
structure AppState where
  length : ℚ
  highPt : ℚ
  lowPt : ℚ
  minRadius : ℚ
  rounding : ℚ
  spacing : ℚ
  selectedProfile : ℕ
  inflectionPt : InflectionText
  unit : Unit
deriving DecidableEq

/-- JavaScript truncation toward zero (used by the `%` operator). -/
def jsTrunc (q : ℚ) : ℤ :=
  if 0 ≤ q then ⌊q⌋ else ⌈q⌉

/-- The JavaScript remainder operator `a % b` (sign of the dividend,
truncated division). -/
def jsMod (a b : ℚ) : ℚ :=
  a - b * (jsTrunc (a / b) : ℚ)

/-- `Math.floor` as a map `ℚ → ℚ`. -/
def jsFloor (q : ℚ) : ℚ :=
  (⌊q⌋ : ℚ)

/-- `Math.round` (round half toward `+∞`), as a map `ℚ → ℚ`.  Mathlib's
`round` is `⌊q + 1/2⌋`, which is exactly the JavaScript rule. -/
def jsRound (q : ℚ) : ℚ :=
  (round q : ℚ)

/-- `parseFloat(x.toFixed(2))`: round to 2 decimal places (ECMAScript
`toFixed` picks the closest `n / 10^f`, breaking ties upward). -/
def toFixed2 (q : ℚ) : ℚ :=
  jsRound (q * 100) / 100

/-- `parseFloat(x.toFixed(3))`: round to 3 decimal places. -/
def toFixed3 (q : ℚ) : ℚ :=
  jsRound (q * 1000) / 1000

/-- The `s1` computation of the small-remainder split (lines 31–48 of the
source): the metric-1000 hundreds rule, the metric integer floor, or the
imperial 2-decimal rounding of the even split. -/
def splitS1 (unit : Unit) (spacing totalStart : ℚ) : ℚ :=
  if unit = Unit.metric ∧ |spacing - 1000| < 1 then
    jsFloor (totalStart / 200) * 100
  else if unit = Unit.metric then
    jsFloor (totalStart / 2)
  else
    toFixed2 (totalStart / 2)

/-- The spacing distributor `calculateSpaces` (lines 8–53 of the source).
`Math.max(0, count - 1)` is natural-number subtraction on `count : ℕ`. -/
def calculateSpaces (length spacing : ℚ) (unit : Unit) : List ℚ :=
  if length ≤ 0 ∨ spacing ≤ 0 then []
  else
    let tolerance : ℚ := 0.01
    let rem : ℚ := jsMod length spacing
    let count : ℕ := (⌊length / spacing⌋).toNat
    if rem < tolerance ∨ |rem - spacing| < tolerance then
      List.replicate count spacing
    else if 0.7 * spacing ≤ rem then
      rem :: List.replicate count spacing
    else
      let totalStart : ℚ := spacing + rem
      let s1 : ℚ := splitS1 unit spacing totalStart
      let s2 : ℚ := totalStart - s1
      let standardCount : ℕ := count - 1
      s1 :: s2 :: List.replicate standardCount spacing

/-- The `overrideValue` computed from the user override string at the top of
`getInflectionDist` (lines 65–83 of the source): a percentage is taken of the
total span length, an absolute value is used as-is, `NaN` yields `null`. -/
def overrideValue (st : AppState) : Option ℚ :=
  match st.inflectionPt with
  | InflectionText.empty => none
  | InflectionText.pct none => none
  | InflectionText.pct (some p) => some (p / 100 * st.length)
  | InflectionText.abs none => none
  | InflectionText.abs (some v) => some v

/-- The auto-calculation tail of `getInflectionDist` (lines 89–92 of the
source): `0` for a degenerate segment or zero sag, otherwise
`min (4·|h|·minRadius / (2·segLen)) (segLen / 2)`. -/
def getInflectionDistAuto (st : AppState) (segLen : ℚ) : ℚ :=
  if segLen ≤ 0 ∨ |st.highPt - st.lowPt| = 0 then 0
  else min (4 * |st.highPt - st.lowPt| * st.minRadius / (2 * segLen)) (segLen / 2)

/-- `getInflectionDist` (lines 64–93 of the source): a positive override is
clamped to `segLen`; a missing, unparseable, or non-positive override falls
through to the auto calculation. -/
def getInflectionDist (st : AppState) (segLen : ℚ) : ℚ :=
  match overrideValue st with
  | some ov => if 0 < ov then min ov segLen else getInflectionDistAuto st segLen
  | none => getInflectionDistAuto st segLen

/-- Profile 1: simple half parabola, vertex at the low point (lines 97–102). -/
def v1 (st : AppState) (x : ℚ) : ℚ :=
  (st.highPt - st.lowPt) / st.length ^ 2 * (x - st.length) ^ 2 + st.lowPt

/-- Coefficient `A` of profile 2 (line 109). -/
def v2A (st : AppState) : ℚ :=
  (st.highPt - st.lowPt) / (getInflectionDist st st.length * st.length)

/-- Coefficient `B` of profile 2 (line 112). -/
def v2B (st : AppState) : ℚ :=
  (st.highPt - st.lowPt) / (st.length * (st.length - getInflectionDist st st.length))

/-- Profile 2, reverse-curve piece on `[0, x_infl)` (line 110). -/
def v2piece1 (st : AppState) (x : ℚ) : ℚ :=
  st.highPt - v2A st * x * x

/-- Profile 2, main-parabola piece on `[x_infl, length]` (line 113). -/
def v2piece2 (st : AppState) (x : ℚ) : ℚ :=
  st.lowPt + v2B st * (x - st.length) ^ 2

/-- Profile 2: half parabola with reverse curve (lines 104–115). -/
def v2 (st : AppState) (x : ℚ) : ℚ :=
  if x < getInflectionDist st st.length then v2piece1 st x else v2piece2 st x

/-- Coefficient `A` of profile 3 (line 126), with `mid = length / 2`. -/
def v3A (st : AppState) : ℚ :=
  (st.highPt - st.lowPt) / (getInflectionDist st (st.length / 2) * (st.length / 2))

/-- Coefficient `B` of profile 3 (line 129). -/
def v3B (st : AppState) : ℚ :=
  (st.highPt - st.lowPt) /
    (st.length / 2 * (st.length / 2 - getInflectionDist st (st.length / 2)))

/-- Profile 3, reverse-curve piece in the mirrored coordinate `xx` (line 127). -/
def v3piece1 (st : AppState) (xx : ℚ) : ℚ :=
  st.highPt - v3A st * xx * xx

/-- Profile 3, main-parabola piece in the mirrored coordinate `xx` (line 130). -/
def v3piece2 (st : AppState) (xx : ℚ) : ℚ :=
  st.lowPt + v3B st * (xx - st.length / 2) ^ 2

/-- Profile 3: full parabola with reverse curve at each end (lines 117–133).
The span is folded onto `[0, mid]` by `xx = if x < mid then x else length - x`. -/
def v3 (st : AppState) (x : ℚ) : ℚ :=
  let mid := st.length / 2
  let xx := if x < mid then x else st.length - x
  if xx < getInflectionDist st mid then v3piece1 st xx else v3piece2 st xx

/-- Profile 4: straight segment with parabolic ends, fixed ratio `r = 0.25`
(lines 135–151). -/
def v4 (st : AppState) (x : ℚ) : ℚ :=
  let r : ℚ := 0.25
  let x1 := st.length * r
  let x2 := st.length * (1 - r)
  if x < x1 then
    (st.highPt - st.lowPt) / x1 ^ 2 * (x - x1) ^ 2 + st.lowPt
  else if x2 < x then
    (st.highPt - st.lowPt) / (st.length - x2) ^ 2 * (x - x2) ^ 2 + st.lowPt
  else
    st.lowPt

/-- Coefficient `A` of profile 5 (lines 158 and 161). -/
def v5A (st : AppState) : ℚ :=
  (st.highPt - st.lowPt) /
    (2 * st.length * getInflectionDist st st.length -
      getInflectionDist st st.length * getInflectionDist st st.length)

/-- Slope `m` of the straight piece of profile 5 (line 162). -/
def v5m (st : AppState) : ℚ :=
  -(2 * v5A st * getInflectionDist st st.length)

/-- Height `y_infl` at the transition of profile 5 (line 163). -/
def v5yInfl (st : AppState) : ℚ :=
  st.highPt - v5A st * getInflectionDist st st.length * getInflectionDist st st.length

/-- Profile 5, parabolic piece on `[0, x_infl)` (line 159). -/
def v5piece1 (st : AppState) (x : ℚ) : ℚ :=
  st.highPt - v5A st * x * x

/-- Profile 5, tangent straight piece on `[x_infl, length]` (line 164). -/
def v5piece2 (st : AppState) (x : ℚ) : ℚ :=
  v5m st * (x - getInflectionDist st st.length) + v5yInfl st

/-- Profile 5: straight segment with a parabolic reverse curve at the top end
(lines 153–166). -/
def v5 (st : AppState) (x : ℚ) : ℚ :=
  if x < getInflectionDist st st.length then v5piece1 st x else v5piece2 st x

/-- The transition abscissa `xt = length - x_infl` of profile 6 (line 172). -/
def v6xt (st : AppState) : ℚ :=
  st.length - getInflectionDist st st.length

/-- Coefficient `A` of profile 6 (lines 174 and 179). -/
def v6A (st : AppState) : ℚ :=
  (st.highPt - st.lowPt) / (st.length * st.length - v6xt st * v6xt st)

/-- Slope `m` of the straight piece of profile 6 (line 175). -/
def v6m (st : AppState) : ℚ :=
  2 * v6A st * (v6xt st - st.length)

/-- Height `y_xt` at the transition of profile 6 (line 176). -/
def v6yXt (st : AppState) : ℚ :=
  st.lowPt + v6A st * (v6xt st - st.length) ^ 2

/-- Profile 6, straight piece on `[0, xt)` (line 177). -/
def v6piece1 (st : AppState) (x : ℚ) : ℚ :=
  v6m st * (x - v6xt st) + v6yXt st

/-- Profile 6, parabolic piece on `[xt, length]` (line 180). -/
def v6piece2 (st : AppState) (x : ℚ) : ℚ :=
  st.lowPt + v6A st * (x - st.length) ^ 2

/-- Profile 6: straight segment with a parabolic reverse curve at the bottom
end (lines 168–182). -/
def v6 (st : AppState) (x : ℚ) : ℚ :=
  if x < v6xt st then v6piece1 st x else v6piece2 st x

/-- Profile 7: inverted simple half parabola (lines 184–189). -/
def v7 (st : AppState) (x : ℚ) : ℚ :=
  (st.lowPt - st.highPt) / st.length ^ 2 * x * x + st.highPt

/-- Profile 8: two parabolas meeting at `(length/2, (highPt+lowPt)/2)`
(lines 191–203). -/
def v8 (st : AppState) (x : ℚ) : ℚ :=
  let mid := st.length / 2
  let midY := (st.highPt + st.lowPt) / 2
  if x < mid then
    st.highPt - (st.highPt - midY) / (mid * mid) * x * x
  else
    st.lowPt + (midY - st.lowPt) / (mid - st.length) ^ 2 * (x - st.length) ^ 2

/-- The height function `calculateY` (lines 95–208): the profile-id switch,
with the straight-line fallback for an unrecognized id (line 206). -/
def calculateY (st : AppState) (x : ℚ) : ℚ :=
  if st.selectedProfile = 1 then v1 st x
  else if st.selectedProfile = 2 then v2 st x
  else if st.selectedProfile = 3 then v3 st x
  else if st.selectedProfile = 4 then v4 st x
  else if st.selectedProfile = 5 then v5 st x
  else if st.selectedProfile = 6 then v6 st x
  else if st.selectedProfile = 7 then v7 st x
  else if st.selectedProfile = 8 then v8 st x
  else st.highPt + (st.lowPt - st.highPt) * (x / st.length)

/-- `roundValue` (lines 210–212): snap a height to the rounding increment. -/
def roundValue (st : AppState) (val : ℚ) : ℚ :=
  jsRound (val / st.rounding) * st.rounding

/-- A sample point: abscissa, raw height, and rounded label. -/
structure Point where
  x : ℚ
  y : ℚ
  label : ℚ
deriving DecidableEq

/-- One step of the accumulation loop (lines 230–233): add the segment, then
clamp a value overshooting `length - 0.001` to exactly `length`. -/
def stepX (length x s : ℚ) : ℚ :=
  let x' := x + s
  if length - 0.001 < x' then length else x'

/-- The point-emitting loop body (lines 229–239), starting from accumulated
abscissa `x`. -/
def samplePointsAux (st : AppState) (x : ℚ) : List ℚ → List Point
  | [] => []
  | s :: rest =>
    let x' := stepX st.length x s
    ⟨x', calculateY st x', roundValue st (calculateY st x')⟩ ::
      samplePointsAux st x' rest

/-- The start point at `x = 0` (lines 222–226). -/
def startPoint (st : AppState) : Point :=
  ⟨0, calculateY st 0, roundValue st (calculateY st 0)⟩

/-- The safety-net end point at `x = length` (lines 246–248). -/
def endPoint (st : AppState) : Point :=
  ⟨st.length, calculateY st st.length, roundValue st (calculateY st st.length)⟩

/-- The points produced by the loop, before the safety net. -/
def rawPoints (st : AppState) : List Point :=
  startPoint st :: samplePointsAux st 0 (calculateSpaces st.length st.spacing st.unit)

/-- An inflection point `{x, y}` for reporting. -/
structure IPoint where
  x : ℚ
  y : ℚ
deriving DecidableEq

/-- `addIp` (lines 258–262): keep only strictly interior candidates. -/
def addIp (st : AppState) (x : ℚ) : List IPoint :=
  if 0 < x ∧ x < st.length then [⟨x, calculateY st x⟩] else []

/-- The inflection-point list (lines 256–280). -/
def inflectionPointsFor (st : AppState) : List IPoint :=
  if 0 < |st.highPt - st.lowPt| ∨ st.selectedProfile = 4 ∨ st.selectedProfile = 8 then
    if st.selectedProfile = 2 ∨ st.selectedProfile = 5 then
      addIp st (getInflectionDist st st.length)
    else if st.selectedProfile = 6 then
      addIp st (st.length - getInflectionDist st st.length)
    else if st.selectedProfile = 3 then
      addIp st (getInflectionDist st (st.length / 2)) ++
        addIp st (st.length - getInflectionDist st (st.length / 2))
    else if st.selectedProfile = 4 then
      addIp st (st.length * 0.25) ++ addIp st (st.length * (1 - 0.25))
    else if st.selectedProfile = 8 then
      addIp st (st.length / 2)
    else []
  else []

/-- The result record (mirrors `CalculationResult` in `src/types`). -/
structure CalculationResult where
  points : List Point
  drapes : List ℚ
  spaces : List ℚ
  betaSum : ℚ
  inflectionPoints : List IPoint
deriving DecidableEq

/-- `calculateProfile` (lines 55–289): distribute spacing, sample the profile,
apply the end-of-span safety net, and report `betaSum` and the inflection
points.  `drapes` collects the rounded labels in sample order. -/
def calculateProfile (st : AppState) : CalculationResult :=
  let spaces := calculateSpaces st.length st.spacing st.unit
  let pts0 := rawPoints st
  let lastPt := pts0.getLastD ⟨0, 0, 0⟩
  let pts := if 1 < |lastPt.x - st.length| then pts0 ++ [endPoint st] else pts0
  let spaces' :=
    if 1 < |lastPt.x - st.length| then spaces ++ [st.length - lastPt.x] else spaces
  { points := pts
    drapes := pts.map Point.label
    spaces := spaces'
    betaSum := toFixed3 (if 0 < st.length then 4 * |st.highPt - st.lowPt| / st.length else 0)
    inflectionPoints := inflectionPointsFor st }

/-- First derivative of `v2piece1` (the quadratic `highPt − A·x²`). -/
def v2piece1D (st : AppState) (x : ℚ) : ℚ :=
  -(2 * v2A st * x)

/-- First derivative of `v2piece2` (the quadratic `lowPt + B·(x − length)²`). -/
def v2piece2D (st : AppState) (x : ℚ) : ℚ :=
  2 * v2B st * (x - st.length)

/-- First derivative of `v3piece1`. -/
def v3piece1D (st : AppState) (xx : ℚ) : ℚ :=
  -(2 * v3A st * xx)

/-- First derivative of `v3piece2`. -/
def v3piece2D (st : AppState) (xx : ℚ) : ℚ :=
  2 * v3B st * (xx - st.length / 2)

/-- First derivative of `v5piece1`. -/
def v5piece1D (st : AppState) (x : ℚ) : ℚ :=
  -(2 * v5A st * x)

/-- First derivative of `v5piece2` (a straight line of slope `m`). -/
def v5piece2D (st : AppState) (_x : ℚ) : ℚ :=
  v5m st

/-- First derivative of `v6piece1` (a straight line of slope `m`). -/
def v6piece1D (st : AppState) (_x : ℚ) : ℚ :=
  v6m st

/-- First derivative of `v6piece2`. -/
def v6piece2D (st : AppState) (x : ℚ) : ℚ :=
  2 * v6A st * (x - st.length)

/-- Reference definition of the override parse, modelled from the words of the
spec (§4.1): percentage of the total span length, absolute number otherwise,
`NaN` means no override. -/
def overrideValueSpec (st : AppState) : Option ℚ :=
  match st.inflectionPt with
  | InflectionText.empty => none
  | InflectionText.pct p => Option.map (fun pc => pc / 100 * st.length) p
  | InflectionText.abs v => v

/-- Reference definition of the inflection distance, modelled from the words
of the spec (§4.1): a parsed override that is not positive is discarded; a
valid override is clamped to `segLen`; auto mode returns `0` for a degenerate
or zero-sag span and `min (4·h·minRadius / (2·segLen)) (segLen / 2)` else. -/
def getInflectionDistSpec (st : AppState) (segLen : ℚ) : ℚ :=
  match (overrideValueSpec st).filter (fun v => decide (0 < v)) with
  | some ov => min ov segLen
  | none =>
    if segLen ≤ 0 ∨ |st.highPt - st.lowPt| = 0 then 0
    else min (4 * |st.highPt - st.lowPt| * st.minRadius / (2 * segLen)) (segLen / 2)

/-- The `betaSum` field, read off from the definition. -/
theorem calculateProfile_betaSum (st : AppState) :
    (calculateProfile st).betaSum =
      toFixed3 (if 0 < st.length then 4 * |st.highPt - st.lowPt| / st.length else 0) :=
  rfl

/-- The `inflectionPoints` field, read off from the definition. -/
theorem calculateProfile_inflectionPoints (st : AppState) :
    (calculateProfile st).inflectionPoints = inflectionPointsFor st :=
  rfl

/-- The `points` field, read off from the definition. -/
theorem calculateProfile_points (st : AppState) :
    (calculateProfile st).points =
      if 1 < |((rawPoints st).getLastD ⟨0, 0, 0⟩).x - st.length| then
        rawPoints st ++ [endPoint st]
      else rawPoints st :=
  rfl

/-- The auto-calculated inflection distance is nonnegative when `minRadius`
is. -/
theorem getInflectionDistAuto_nonneg (st : AppState) (segLen : ℚ)
    (hmr : 0 ≤ st.minRadius) : 0 ≤ getInflectionDistAuto st segLen := by
  unfold getInflectionDistAuto
  split_ifs with h
  · exact le_refl 0
  · push_neg at h
    refine le_min (div_nonneg ?_ ?_) ?_ <;> nlinarith [abs_nonneg (st.highPt - st.lowPt), h.1]

/-- The inflection distance is nonnegative on a nonnegative segment when
`minRadius` is nonnegative. -/
theorem getInflectionDist_nonneg (st : AppState) (segLen : ℚ)
    (hmr : 0 ≤ st.minRadius) (hseg : 0 ≤ segLen) :
    0 ≤ getInflectionDist st segLen := by
  unfold getInflectionDist
  rcases hov : overrideValue st with _ | ov
  · exact getInflectionDistAuto_nonneg st segLen hmr
  · by_cases h : 0 < ov
    · simp only [if_pos h]
      exact le_min h.le hseg
    · simp only [if_neg h]
      exact getInflectionDistAuto_nonneg st segLen hmr

/-- The inflection distance never exceeds the segment length (for a
nonnegative segment). -/
theorem getInflectionDist_le (st : AppState) (segLen : ℚ) (hseg : 0 ≤ segLen) :
    getInflectionDist st segLen ≤ segLen := by
  have hauto : getInflectionDistAuto st segLen ≤ segLen := by
    unfold getInflectionDistAuto
    split_ifs with h
    · exact hseg
    · exact le_trans (min_le_right _ _) (by linarith)
  unfold getInflectionDist
  rcases hov : overrideValue st with _ | ov
  · exact hauto
  · by_cases h : 0 < ov
    · simp only [if_pos h]
      exact min_le_right _ _
    · simp only [if_neg h]
      exact hauto

/-- With a positive `minRadius`, a positive segment, and genuine sag, the
inflection distance is strictly positive. -/
theorem getInflectionDist_pos (st : AppState) (segLen : ℚ)
    (hmr : 0 < st.minRadius) (hseg : 0 < segLen) (hne : st.highPt ≠ st.lowPt) :
    0 < getInflectionDist st segLen := by
  have habs : 0 < |st.highPt - st.lowPt| := abs_pos.mpr (sub_ne_zero.mpr hne)
  have hauto : 0 < getInflectionDistAuto st segLen := by
    unfold getInflectionDistAuto
    rw [if_neg (by push_neg; exact ⟨hseg, habs.ne'⟩)]
    refine lt_min (div_pos (by positivity) (by linarith)) (by linarith)
  unfold getInflectionDist
  rcases hov : overrideValue st with _ | ov
  · exact hauto
  · by_cases h : 0 < ov
    · simp only [if_pos h]
      exact lt_min h hseg
    · simp only [if_neg h]
      exact hauto

/-- A vanishing inflection distance on a positive segment with positive
`minRadius` can only come from zero sag. -/
theorem eq_of_getInflectionDist_eq_zero (st : AppState) (segLen : ℚ)
    (hmr : 0 < st.minRadius) (hseg : 0 < segLen)
    (h : getInflectionDist st segLen = 0) : st.highPt = st.lowPt := by
  by_contra hne
  exact absurd h (getInflectionDist_pos st segLen hmr hseg hne).ne'

/-- C4: `getInflectionDist` agrees with the reference definition written from
the spec's words, for every configuration and every segment length. -/
theorem getInflectionDist_matches_spec (st : AppState) (segLen : ℚ) :
    getInflectionDist st segLen = getInflectionDistSpec st segLen := by
  unfold getInflectionDist getInflectionDistSpec overrideValue overrideValueSpec
    getInflectionDistAuto
  rcases st.inflectionPt with _ | p | v
  · rfl
  · rcases p with _ | p
    · rfl
    · by_cases h : 0 < p / 100 * st.length <;>
        simp [Option.filter, h]
  · rcases v with _ | v
    · rfl
    · by_cases h : 0 < v <;> simp [Option.filter, h]

/-- C8: `betaSum` is `4·|highPt − lowPt| / length` rounded to three decimals
for a positive span, `0` for a degenerate span, and on the concrete scenario
`length = 7000, highPt = 450, lowPt = 45` it evaluates to `0.231`. -/
theorem betaSum_spec (st : AppState) :
    (0 < st.length →
      (calculateProfile st).betaSum = toFixed3 (4 * |st.highPt - st.lowPt| / st.length)) ∧
    (st.length ≤ 0 → (calculateProfile st).betaSum = 0) ∧
    (calculateProfile (AppState.mk 7000 450 45 3000 5 1000 1
      InflectionText.empty Unit.metric)).betaSum = 0.231 := by
  refine ⟨fun h => ?_, fun h => ?_, ?_⟩
  · rw [calculateProfile_betaSum, if_pos h]
  · rw [calculateProfile_betaSum, if_neg (not_lt.mpr h)]
    norm_num [toFixed3, jsRound]
  · rw [calculateProfile_betaSum]
    norm_num [toFixed3, jsRound, round_eq]

/-- C8 witness: the positive-length branch applied to the concrete scenario
configuration. -/
theorem betaSum_spec_witness :
    (calculateProfile (AppState.mk 7000 450 45 3000 5 1000 1
      InflectionText.empty Unit.metric)).betaSum =
      toFixed3 (4 * |(450 : ℚ) - 45| / 7000) :=
  (betaSum_spec (AppState.mk 7000 450 45 3000 5 1000 1
      InflectionText.empty Unit.metric)).1 (by norm_num)

/-- C9: profile 3 is symmetric about the midpoint: for `0 ≤ x ≤ length`,
`height x = height (length − x)`. -/
theorem profile3_symmetric (st : AppState) (h3 : st.selectedProfile = 3)
    (_hL : 0 < st.length) (x : ℚ) (_hx0 : 0 ≤ x) (_hxL : x ≤ st.length) :
    calculateY st x = calculateY st (st.length - x) := by
  have hY : ∀ z, calculateY st z = v3 st z := by
    intro z
    simp [calculateY, h3]
  rw [hY, hY]
  unfold v3
  rcases lt_trichotomy x (st.length / 2) with h | h | h
  · have h2 : ¬(st.length - x < st.length / 2) := by linarith
    simp only [if_pos h, if_neg h2, sub_sub_cancel]
  · have h1 : ¬(x < st.length / 2) := by linarith
    have h2 : ¬(st.length - x < st.length / 2) := by
      rw [h] at *
      intro hc
      linarith
    have hx : st.length - x = x := by linarith
    simp only [if_neg h1, if_neg h2, sub_sub_cancel, hx]
  · have h1 : ¬(x < st.length / 2) := by linarith
    have h2 : st.length - x < st.length / 2 := by linarith
    simp only [if_neg h1, if_pos h2]

/-- C9 witness: symmetry at `x = 2000` on a concrete profile-3
configuration. -/
theorem profile3_symmetric_witness :
    calculateY (AppState.mk 7000 450 45 3000 5 1000 3 InflectionText.empty
      Unit.metric) 2000 =
    calculateY (AppState.mk 7000 450 45 3000 5 1000 3 InflectionText.empty
      Unit.metric)
      ((AppState.mk 7000 450 45 3000 5 1000 3 InflectionText.empty
        Unit.metric).length - 2000) :=
  profile3_symmetric _ rfl (by norm_num) 2000 (by norm_num) (by norm_num)

/-- Every member of an `addIp` output is strictly interior. -/
theorem addIp_mem (st : AppState) (x : ℚ) (p : IPoint) (hp : p ∈ addIp st x) :
    0 < p.x ∧ p.x < st.length := by
  unfold addIp at hp
  split_ifs at hp with h
  · simp only [List.mem_singleton] at hp
    subst hp
    exact h
  · simp at hp

/-- C7: with zero sag every sag-dependent profile (2, 3, 5, 6) reports no
inflection points, and in every configuration every reported inflection point
is strictly interior (`0 < x < length`). -/
theorem inflectionPoints_spec (st : AppState) :
    (st.highPt = st.lowPt → st.selectedProfile ∈ ([2, 3, 5, 6] : List ℕ) →
      (calculateProfile st).inflectionPoints = []) ∧
    ∀ p ∈ (calculateProfile st).inflectionPoints, 0 < p.x ∧ p.x < st.length := by
  constructor
  · intro hEq hMem
    rw [calculateProfile_inflectionPoints]
    have habs : |st.highPt - st.lowPt| = 0 := by rw [hEq, sub_self, abs_zero]
    simp only [List.mem_cons, List.mem_singleton, List.not_mem_nil, or_false] at hMem
    rcases hMem with h | h | h | h <;> simp [inflectionPointsFor, habs, h]
  · intro p hp
    rw [calculateProfile_inflectionPoints] at hp
    unfold inflectionPointsFor at hp
    split_ifs at hp <;>
      first
        | exact absurd hp (List.not_mem_nil p)
        | exact addIp_mem st _ p hp
        | · rcases List.mem_append.mp hp with h | h
            · exact addIp_mem st _ p h
            · exact addIp_mem st _ p h

/-- C7 witness: a zero-sag profile-2 configuration reports no inflection
points. -/
theorem inflectionPoints_spec_witness :
    (calculateProfile (AppState.mk 7000 450 450 3000 5 1000 2
      InflectionText.empty Unit.metric)).inflectionPoints = [] :=
  (inflectionPoints_spec (AppState.mk 7000 450 450 3000 5 1000 2
      InflectionText.empty Unit.metric)).1 rfl (by decide)

/-- C5: the three metric scenarios from the spec evaluate exactly as stated:
`calculateSpaces 7000 1000 metric = [1000 × 7]`,
`calculateSpaces 5700 1000 metric = [700, 1000 × 5]`,
`calculateSpaces 5100 1000 metric = [500, 600, 1000 × 4]`. -/
theorem calculateSpaces_scenarios :
    calculateSpaces 7000 1000 Unit.metric =
      [1000, 1000, 1000, 1000, 1000, 1000, 1000] ∧
    calculateSpaces 5700 1000 Unit.metric = [700, 1000, 1000, 1000, 1000, 1000] ∧
    calculateSpaces 5100 1000 Unit.metric = [500, 600, 1000, 1000, 1000, 1000] := by
  refine ⟨?_, ?_, ?_⟩ <;>
    norm_num [calculateSpaces, splitS1, jsMod, jsTrunc, jsFloor] <;> decide

/-- Profile 1 reproduces both endpoints. -/
theorem v1_endpoints (st : AppState) (hL : 0 < st.length) :
    v1 st 0 = st.highPt ∧ v1 st st.length = st.lowPt := by
  have hL' : st.length ≠ 0 := ne_of_gt hL
  constructor
  · unfold v1
    field_simp
  · unfold v1
    simp [sub_self]

/-- Profile 2 reproduces both endpoints, provided the transition does not
clamp to the full span (`x_infl < length`).  Under that proviso every
coefficient denominator met on the evaluation path — `x_infl · length` in the
first piece when `x_infl > 0`, `length · (length − x_infl)` in the second —
is nonzero, so the statement does not lean on the rational convention
`q / 0 = 0` (at `x_infl = length` the code's `B` is a genuine division by
zero). -/
theorem v2_endpoints (st : AppState) (hL : 0 < st.length) (hmr : 0 < st.minRadius)
    (hlt : getInflectionDist st st.length < st.length) :
    v2 st 0 = st.highPt ∧ v2 st st.length = st.lowPt := by
  have hL' : st.length ≠ 0 := ne_of_gt hL
  have hxi0 : 0 ≤ getInflectionDist st st.length :=
    getInflectionDist_nonneg st st.length hmr.le hL.le
  constructor
  · unfold v2
    by_cases h : (0 : ℚ) < getInflectionDist st st.length
    · rw [if_pos h]
      unfold v2piece1
      ring
    · push_neg at h
      have hx0 : getInflectionDist st st.length = 0 := le_antisymm h hxi0
      rw [if_neg (by rw [hx0]; exact lt_irrefl 0)]
      unfold v2piece2 v2B
      rw [hx0]
      field_simp
      ring
  · unfold v2
    rw [if_neg (not_lt.mpr hlt.le)]
    unfold v2piece2
    simp [sub_self]

/-- Profile 3 reproduces `highPt` at both ends of the span (it is the
symmetric full parabola). -/
theorem v3_endpoints (st : AppState) (hL : 0 < st.length) (hmr : 0 < st.minRadius) :
    v3 st 0 = st.highPt ∧ v3 st st.length = st.highPt := by
  have hmid : (0 : ℚ) < st.length / 2 := by linarith
  have hmid' : st.length / 2 ≠ 0 := ne_of_gt hmid
  have hxi0 : 0 ≤ getInflectionDist st (st.length / 2) :=
    getInflectionDist_nonneg st (st.length / 2) hmr.le hmid.le
  have key : (if (0 : ℚ) < getInflectionDist st (st.length / 2) then v3piece1 st 0
      else v3piece2 st 0) = st.highPt := by
    by_cases h : (0 : ℚ) < getInflectionDist st (st.length / 2)
    · rw [if_pos h]
      unfold v3piece1
      ring
    · push_neg at h
      have hx0 : getInflectionDist st (st.length / 2) = 0 := le_antisymm h hxi0
      rw [if_neg (by rw [hx0]; exact lt_irrefl 0)]
      unfold v3piece2 v3B
      rw [hx0]
      field_simp
      ring
  constructor
  · simp only [v3]
    rw [if_pos hmid, key]
  · simp only [v3]
    rw [if_neg (by linarith : ¬ st.length < st.length / 2), sub_self, key]

/-- Profile 5 reproduces both endpoints, provided there is genuine sag
(`highPt ≠ lowPt`).  Genuine sag (with positive `minRadius`) forces
`0 < x_infl ≤ length`, so the coefficient denominator
`2·length·x_infl − x_infl²` is nonzero and the statement does not lean on
the rational convention `q / 0 = 0` (with zero sag the code's `A` is a
genuine `0 / 0`). -/
theorem v5_endpoints (st : AppState) (hL : 0 < st.length) (hmr : 0 < st.minRadius)
    (hne : st.highPt ≠ st.lowPt) :
    v5 st 0 = st.highPt ∧ v5 st st.length = st.lowPt := by
  have hxipos : 0 < getInflectionDist st st.length :=
    getInflectionDist_pos st st.length hmr hL hne
  have hxiL : getInflectionDist st st.length ≤ st.length :=
    getInflectionDist_le st st.length hL.le
  constructor
  · unfold v5
    rw [if_pos hxipos]
    unfold v5piece1
    ring
  · unfold v5
    rw [if_neg (not_lt.mpr hxiL)]
    unfold v5piece2 v5m v5yInfl v5A
    have hd : 2 * st.length * getInflectionDist st st.length -
        getInflectionDist st st.length * getInflectionDist st st.length ≠ 0 := by
      have hp : 0 < getInflectionDist st st.length *
          (2 * st.length - getInflectionDist st st.length) := by
        apply mul_pos hxipos
        linarith
      intro hc
      apply ne_of_gt hp
      linarith [hc]
    field_simp
    ring

/-- Profile 6 reproduces both endpoints, provided there is genuine sag
(`highPt ≠ lowPt`).  Genuine sag (with positive `minRadius`) forces
`0 < x_infl ≤ length`, hence `0 ≤ xt < length`, so the coefficient
denominator `length² − xt²` is nonzero and the statement does not lean on
the rational convention `q / 0 = 0` (with zero sag the code's `A` is a
genuine `0 / 0`). -/
theorem v6_endpoints (st : AppState) (hL : 0 < st.length) (hmr : 0 < st.minRadius)
    (hne : st.highPt ≠ st.lowPt) :
    v6 st 0 = st.highPt ∧ v6 st st.length = st.lowPt := by
  have hL' : st.length ≠ 0 := ne_of_gt hL
  have hxipos : 0 < getInflectionDist st st.length :=
    getInflectionDist_pos st st.length hmr hL hne
  have hxiL : getInflectionDist st st.length ≤ st.length :=
    getInflectionDist_le st st.length hL.le
  constructor
  · unfold v6
    by_cases hlt : getInflectionDist st st.length < st.length
    · have hxt : (0 : ℚ) < v6xt st := by
        unfold v6xt
        linarith
      rw [if_pos hxt]
      unfold v6piece1 v6m v6yXt v6A v6xt
      have hd : st.length * st.length -
          (st.length - getInflectionDist st st.length) *
            (st.length - getInflectionDist st st.length) ≠ 0 := by
        have hp : 0 < getInflectionDist st st.length *
            (2 * st.length - getInflectionDist st st.length) := by
          apply mul_pos hxipos
          linarith
        intro hc
        apply ne_of_gt hp
        linarith [hc]
      field_simp
      ring
    · have hxeq : getInflectionDist st st.length = st.length :=
        le_antisymm hxiL (not_lt.mp hlt)
      have hxt : ¬ (0 : ℚ) < v6xt st := by
        unfold v6xt
        rw [hxeq]
        simp
      rw [if_neg hxt]
      unfold v6piece2 v6A v6xt
      rw [hxeq]
      field_simp
      ring
  · unfold v6
    have hxt : ¬ st.length < v6xt st := by
      unfold v6xt
      linarith
    rw [if_neg hxt]
    unfold v6piece2
    simp [sub_self]

/-- Profile 7 reproduces both endpoints. -/
theorem v7_endpoints (st : AppState) (hL : 0 < st.length) :
    v7 st 0 = st.highPt ∧ v7 st st.length = st.lowPt := by
  have hL' : st.length ≠ 0 := ne_of_gt hL
  constructor
  · unfold v7
    ring
  · unfold v7
    field_simp
    ring

/-- Profile 8 reproduces both endpoints. -/
theorem v8_endpoints (st : AppState) (hL : 0 < st.length) :
    v8 st 0 = st.highPt ∧ v8 st st.length = st.lowPt := by
  have hmid : (0 : ℚ) < st.length / 2 := by linarith
  constructor
  · simp only [v8]
    rw [if_pos hmid]
    ring
  · simp only [v8]
    rw [if_neg (by linarith : ¬ st.length < st.length / 2)]
    simp [sub_self]

/-- C1 (amended): with a positive span and positive `minRadius`, profiles
1, 7 and 8 satisfy `height 0 = highPt` and `height length = lowPt`
unconditionally; profile 2 does whenever the transition does not clamp to the
full span (`getInflectionDist < length` — an override of the whole span turns
the code's coefficient `B` into a division by zero, `NaN` in JavaScript);
profiles 5 and 6 do whenever there is genuine sag (`highPt ≠ lowPt` — with
zero sag their coefficient `A` is `0 / 0` in JavaScript); and profile 3,
being the full parabola symmetric about the midpoint, instead satisfies
`height 0 = highPt` and `height length = highPt`.  On this restricted domain
every denominator met on the evaluation path is nonzero, so the rational
model agrees with the program. -/
theorem endpoint_property (st : AppState) (hL : 0 < st.length)
    (hmr : 0 < st.minRadius) :
    (st.selectedProfile ∈ ([1, 7, 8] : List ℕ) →
      calculateY st 0 = st.highPt ∧ calculateY st st.length = st.lowPt) ∧
    (st.selectedProfile = 2 → getInflectionDist st st.length < st.length →
      calculateY st 0 = st.highPt ∧ calculateY st st.length = st.lowPt) ∧
    (st.selectedProfile = 5 ∨ st.selectedProfile = 6 → st.highPt ≠ st.lowPt →
      calculateY st 0 = st.highPt ∧ calculateY st st.length = st.lowPt) ∧
    (st.selectedProfile = 3 →
      calculateY st 0 = st.highPt ∧ calculateY st st.length = st.highPt) := by
  refine ⟨fun hMem => ?_, fun h2 hlt => ?_, fun h56 hne => ?_, fun h3 => ?_⟩
  · simp only [List.mem_cons, List.mem_singleton, List.not_mem_nil, or_false] at hMem
    rcases hMem with h | h | h
    · simpa [calculateY, h] using v1_endpoints st hL
    · simpa [calculateY, h] using v7_endpoints st hL
    · simpa [calculateY, h] using v8_endpoints st hL
  · simpa [calculateY, h2] using v2_endpoints st hL hmr hlt
  · rcases h56 with h | h
    · simpa [calculateY, h] using v5_endpoints st hL hmr hne
    · simpa [calculateY, h] using v6_endpoints st hL hmr hne
  · simpa [calculateY, h3] using v3_endpoints st hL hmr

/-- C1 counterexample: two concrete refutations of the claim as stated.
On the profile-3 configuration `length = 2, highPt = 1, lowPt = 0` the height
at `x = length` is `highPt = 1`, not `lowPt` (the fold onto
`min(x, length − x)` makes the span symmetric).  And on the profile-5
configuration with the same geometry but `minRadius = 0`, the auto transition
collapses to `0` and the height at `x = length` is again `highPt`, not
`lowPt` (the code evaluates `A = h / 0` there, `NaN` in JavaScript), showing
the endpoint property also fails without a positivity assumption on
`minRadius`. -/
theorem endpoint_property_cex :
    ¬ (calculateY (AppState.mk 2 1 0 1 1 1 3 InflectionText.empty Unit.metric) 2 =
        (AppState.mk 2 1 0 1 1 1 3 InflectionText.empty Unit.metric).lowPt) ∧
    ¬ (calculateY (AppState.mk 2 1 0 0 1 1 5 InflectionText.empty Unit.metric) 2 =
        (AppState.mk 2 1 0 0 1 1 5 InflectionText.empty Unit.metric).lowPt) := by
  constructor
  · norm_num [calculateY, v3, v3piece1, v3piece2, v3A, v3B, getInflectionDist,
      overrideValue, getInflectionDistAuto, min_def]
  · norm_num [calculateY, v5, v5piece1, v5piece2, v5m, v5yInfl, v5A,
      getInflectionDist, overrideValue, getInflectionDistAuto, min_def]

/-- C1 witness: all four conjuncts exercised on concrete configurations —
profile 1, profile 2 (auto transition, strictly inside the span), profile 5
(genuine sag), and profile 3. -/
theorem endpoint_property_witness :
    (calculateY (AppState.mk 7000 450 45 3000 5 1000 1 InflectionText.empty
        Unit.metric) 0 =
      (AppState.mk 7000 450 45 3000 5 1000 1 InflectionText.empty
        Unit.metric).highPt ∧
      calculateY (AppState.mk 7000 450 45 3000 5 1000 1 InflectionText.empty
        Unit.metric)
        (AppState.mk 7000 450 45 3000 5 1000 1 InflectionText.empty
          Unit.metric).length =
      (AppState.mk 7000 450 45 3000 5 1000 1 InflectionText.empty
        Unit.metric).lowPt) ∧
    (calculateY (AppState.mk 7000 450 45 3000 5 1000 2 InflectionText.empty
        Unit.metric) 0 =
      (AppState.mk 7000 450 45 3000 5 1000 2 InflectionText.empty
        Unit.metric).highPt ∧
      calculateY (AppState.mk 7000 450 45 3000 5 1000 2 InflectionText.empty
        Unit.metric)
        (AppState.mk 7000 450 45 3000 5 1000 2 InflectionText.empty
          Unit.metric).length =
      (AppState.mk 7000 450 45 3000 5 1000 2 InflectionText.empty
        Unit.metric).lowPt) ∧
    (calculateY (AppState.mk 7000 450 45 3000 5 1000 5 InflectionText.empty
        Unit.metric) 0 =
      (AppState.mk 7000 450 45 3000 5 1000 5 InflectionText.empty
        Unit.metric).highPt ∧
      calculateY (AppState.mk 7000 450 45 3000 5 1000 5 InflectionText.empty
        Unit.metric)
        (AppState.mk 7000 450 45 3000 5 1000 5 InflectionText.empty
          Unit.metric).length =
      (AppState.mk 7000 450 45 3000 5 1000 5 InflectionText.empty
        Unit.metric).lowPt) ∧
    (calculateY (AppState.mk 7000 450 45 3000 5 1000 3 InflectionText.empty
        Unit.metric) 0 =
      (AppState.mk 7000 450 45 3000 5 1000 3 InflectionText.empty
        Unit.metric).highPt ∧
      calculateY (AppState.mk 7000 450 45 3000 5 1000 3 InflectionText.empty
        Unit.metric)
        (AppState.mk 7000 450 45 3000 5 1000 3 InflectionText.empty
          Unit.metric).length =
      (AppState.mk 7000 450 45 3000 5 1000 3 InflectionText.empty
        Unit.metric).highPt) :=
  ⟨(endpoint_property (AppState.mk 7000 450 45 3000 5 1000 1 InflectionText.empty
      Unit.metric) (by norm_num) (by norm_num)).1 (by decide),
   (endpoint_property (AppState.mk 7000 450 45 3000 5 1000 2 InflectionText.empty
      Unit.metric) (by norm_num) (by norm_num)).2.1 rfl
     (by norm_num [getInflectionDist, overrideValue, getInflectionDistAuto, min_def]),
   (endpoint_property (AppState.mk 7000 450 45 3000 5 1000 5 InflectionText.empty
      Unit.metric) (by norm_num) (by norm_num)).2.2.1 (Or.inl rfl) (by norm_num),
   (endpoint_property (AppState.mk 7000 450 45 3000 5 1000 3 InflectionText.empty
      Unit.metric) (by norm_num) (by norm_num)).2.2.2 rfl⟩

/-- Derivative rule for the downward parabolic pieces `c − A·t·t`. -/
theorem hasDerivAt_down_parabola (c A x : ℝ) :
    HasDerivAt (fun t : ℝ => c - A * t * t) (-(2 * A * x)) x := by
  have h : HasDerivAt (fun t : ℝ => c - A * (t * t)) (0 - A * (1 * x + x * 1)) x :=
    (hasDerivAt_const x c).sub (((hasDerivAt_id x).mul (hasDerivAt_id x)).const_mul A)
  have hf : (fun t : ℝ => c - A * (t * t)) = fun t : ℝ => c - A * t * t := by
    funext t
    ring
  rw [hf] at h
  convert h using 1
  ring

/-- Derivative rule for the shifted parabolic pieces `c + A·(t − d)²`. -/
theorem hasDerivAt_shifted_parabola (c A d x : ℝ) :
    HasDerivAt (fun t : ℝ => c + A * (t - d) ^ 2) (2 * A * (x - d)) x := by
  have hpow := ((hasDerivAt_id x).sub_const d).pow 2
  have h := (hpow.const_mul A).const_add c
  convert h using 1
  simp only [id_eq]
  ring

/-- Derivative rule for the straight pieces `m·(t − d) + c`. -/
theorem hasDerivAt_line (m d c x : ℝ) :
    HasDerivAt (fun t : ℝ => m * (t - d) + c) m x := by
  have h := (((hasDerivAt_id x).sub_const d).const_mul m).add_const c
  convert h using 1
  ring

/-- `v2piece1D` is the honest derivative of the real extension of
`v2piece1`. -/
theorem v2piece1D_spec (st : AppState) (q : ℚ) :
    HasDerivAt (fun t : ℝ => (st.highPt : ℝ) - (v2A st : ℝ) * t * t)
      ((v2piece1D st q : ℚ) : ℝ) (q : ℝ) := by
  have h := hasDerivAt_down_parabola (st.highPt : ℝ) (v2A st : ℝ) (q : ℝ)
  convert h using 1
  push_cast [v2piece1D]
  ring

/-- `v2piece2D` is the honest derivative of the real extension of
`v2piece2`. -/
theorem v2piece2D_spec (st : AppState) (q : ℚ) :
    HasDerivAt (fun t : ℝ => (st.lowPt : ℝ) + (v2B st : ℝ) * (t - (st.length : ℝ)) ^ 2)
      ((v2piece2D st q : ℚ) : ℝ) (q : ℝ) := by
  have h := hasDerivAt_shifted_parabola (st.lowPt : ℝ) (v2B st : ℝ) (st.length : ℝ) (q : ℝ)
  convert h using 1
  push_cast [v2piece2D]
  ring

/-- `v3piece1D` is the honest derivative of the real extension of
`v3piece1`. -/
theorem v3piece1D_spec (st : AppState) (q : ℚ) :
    HasDerivAt (fun t : ℝ => (st.highPt : ℝ) - (v3A st : ℝ) * t * t)
      ((v3piece1D st q : ℚ) : ℝ) (q : ℝ) := by
  have h := hasDerivAt_down_parabola (st.highPt : ℝ) (v3A st : ℝ) (q : ℝ)
  convert h using 1
  push_cast [v3piece1D]
  ring

/-- `v3piece2D` is the honest derivative of the real extension of
`v3piece2`. -/
theorem v3piece2D_spec (st : AppState) (q : ℚ) :
    HasDerivAt
      (fun t : ℝ => (st.lowPt : ℝ) + (v3B st : ℝ) * (t - (st.length : ℝ) / 2) ^ 2)
      ((v3piece2D st q : ℚ) : ℝ) (q : ℝ) := by
  have h := hasDerivAt_shifted_parabola (st.lowPt : ℝ) (v3B st : ℝ)
    ((st.length : ℝ) / 2) (q : ℝ)
  convert h using 1
  push_cast [v3piece2D]
  ring

/-- `v5piece1D` is the honest derivative of the real extension of
`v5piece1`. -/
theorem v5piece1D_spec (st : AppState) (q : ℚ) :
    HasDerivAt (fun t : ℝ => (st.highPt : ℝ) - (v5A st : ℝ) * t * t)
      ((v5piece1D st q : ℚ) : ℝ) (q : ℝ) := by
  have h := hasDerivAt_down_parabola (st.highPt : ℝ) (v5A st : ℝ) (q : ℝ)
  convert h using 1
  push_cast [v5piece1D]
  ring

/-- `v5piece2D` is the honest derivative of the real extension of
`v5piece2`. -/
theorem v5piece2D_spec (st : AppState) (q : ℚ) :
    HasDerivAt
      (fun t : ℝ => (v5m st : ℝ) * (t - (getInflectionDist st st.length : ℝ)) +
        (v5yInfl st : ℝ))
      ((v5piece2D st q : ℚ) : ℝ) (q : ℝ) := by
  have h := hasDerivAt_line (v5m st : ℝ) (getInflectionDist st st.length : ℝ)
    (v5yInfl st : ℝ) (q : ℝ)
  convert h using 1

/-- `v6piece1D` is the honest derivative of the real extension of
`v6piece1`. -/
theorem v6piece1D_spec (st : AppState) (q : ℚ) :
    HasDerivAt
      (fun t : ℝ => (v6m st : ℝ) * (t - (v6xt st : ℝ)) + (v6yXt st : ℝ))
      ((v6piece1D st q : ℚ) : ℝ) (q : ℝ) := by
  have h := hasDerivAt_line (v6m st : ℝ) (v6xt st : ℝ) (v6yXt st : ℝ) (q : ℝ)
  convert h using 1

/-- `v6piece2D` is the honest derivative of the real extension of
`v6piece2`. -/
theorem v6piece2D_spec (st : AppState) (q : ℚ) :
    HasDerivAt (fun t : ℝ => (st.lowPt : ℝ) + (v6A st : ℝ) * (t - (st.length : ℝ)) ^ 2)
      ((v6piece2D st q : ℚ) : ℝ) (q : ℝ) := by
  have h := hasDerivAt_shifted_parabola (st.lowPt : ℝ) (v6A st : ℝ) (st.length : ℝ) (q : ℝ)
  convert h using 1
  push_cast [v6piece2D]
  ring

/-- Shared algebra of the two-piece reverse-curve construction (profiles 2
and 3): with the transition strictly inside `(0, mid)`, the reverse-curve
parabola and the main parabola agree in value and slope at the transition. -/
theorem twoPieceMatch (high low mid xi : ℚ) (hxi : xi ≠ 0) (hmid : mid ≠ 0)
    (hmxi : mid - xi ≠ 0) :
    high - (high - low) / (xi * mid) * xi * xi =
      low + (high - low) / (mid * (mid - xi)) * (xi - mid) ^ 2 ∧
    -(2 * ((high - low) / (xi * mid)) * xi) =
      2 * ((high - low) / (mid * (mid - xi))) * (xi - mid) := by
  constructor
  · field_simp
    ring
  · field_simp
    ring

/-- C3: for profiles 2, 5 and 6 (transition solved on the full span) and
profile 3 (transition solved on the half span `length / 2`), whenever the
transition point lies strictly inside the segment, the two pieces agree in
value and their first derivatives agree at the transition — exactly, hence in
particular within `1e-6`.  For profile 6 the transition abscissa is
`xt = length − x_infl`. -/
theorem piecewise_c1_continuity (st : AppState) (hL : 0 < st.length) :
    (0 < getInflectionDist st st.length →
      getInflectionDist st st.length < st.length →
      (v2piece1 st (getInflectionDist st st.length) =
          v2piece2 st (getInflectionDist st st.length) ∧
        v2piece1D st (getInflectionDist st st.length) =
          v2piece2D st (getInflectionDist st st.length)) ∧
      (v5piece1 st (getInflectionDist st st.length) =
          v5piece2 st (getInflectionDist st st.length) ∧
        v5piece1D st (getInflectionDist st st.length) =
          v5piece2D st (getInflectionDist st st.length)) ∧
      (v6piece1 st (v6xt st) = v6piece2 st (v6xt st) ∧
        v6piece1D st (v6xt st) = v6piece2D st (v6xt st))) ∧
    (0 < getInflectionDist st (st.length / 2) →
      getInflectionDist st (st.length / 2) < st.length / 2 →
      v3piece1 st (getInflectionDist st (st.length / 2)) =
          v3piece2 st (getInflectionDist st (st.length / 2)) ∧
        v3piece1D st (getInflectionDist st (st.length / 2)) =
          v3piece2D st (getInflectionDist st (st.length / 2))) := by
  have hL' : st.length ≠ 0 := ne_of_gt hL
  constructor
  · intro h0 hlt
    have hxi : getInflectionDist st st.length ≠ 0 := ne_of_gt h0
    have hLxi : st.length - getInflectionDist st st.length ≠ 0 :=
      ne_of_gt (sub_pos.mpr hlt)
    refine ⟨⟨?_, ?_⟩, ⟨?_, ?_⟩, ⟨?_, ?_⟩⟩
    · unfold v2piece1 v2piece2 v2A v2B
      field_simp
      ring
    · unfold v2piece1D v2piece2D v2A v2B
      field_simp
      ring
    · unfold v5piece1 v5piece2 v5m v5yInfl
      ring
    · unfold v5piece1D v5piece2D v5m
      rfl
    · unfold v6piece1 v6piece2 v6m v6yXt
      ring
    · unfold v6piece1D v6piece2D v6m
      rfl
  · intro h0 hlt
    obtain ⟨xi, hxidef⟩ : ∃ xi, getInflectionDist st (st.length / 2) = xi := ⟨_, rfl⟩
    rw [hxidef] at h0 hlt
    have hmid : (0 : ℚ) < st.length / 2 := lt_trans h0 hlt
    have hmid' : st.length / 2 ≠ 0 := ne_of_gt hmid
    have hxi : xi ≠ 0 := ne_of_gt h0
    have hmxi : st.length / 2 - xi ≠ 0 := ne_of_gt (sub_pos.mpr hlt)
    have key := twoPieceMatch st.highPt st.lowPt (st.length / 2) xi hxi hmid' hmxi
    constructor
    · unfold v3piece1 v3piece2 v3A v3B
      rw [hxidef]
      exact key.1
    · unfold v3piece1D v3piece2D v3A v3B
      rw [hxidef]
      exact key.2

/-- C3 witness: value continuity of profiles 2 and 3 on a concrete
configuration whose auto-solved transitions are strictly interior. -/
theorem piecewise_c1_continuity_witness :
    v2piece1 (AppState.mk 7000 450 45 3000 5 1000 2 InflectionText.empty
        Unit.metric)
      (getInflectionDist (AppState.mk 7000 450 45 3000 5 1000 2
        InflectionText.empty Unit.metric)
        (AppState.mk 7000 450 45 3000 5 1000 2 InflectionText.empty
          Unit.metric).length) =
    v2piece2 (AppState.mk 7000 450 45 3000 5 1000 2 InflectionText.empty
        Unit.metric)
      (getInflectionDist (AppState.mk 7000 450 45 3000 5 1000 2
        InflectionText.empty Unit.metric)
        (AppState.mk 7000 450 45 3000 5 1000 2 InflectionText.empty
          Unit.metric).length) ∧
    v3piece1 (AppState.mk 7000 450 45 3000 5 1000 2 InflectionText.empty
        Unit.metric)
      (getInflectionDist (AppState.mk 7000 450 45 3000 5 1000 2
        InflectionText.empty Unit.metric)
        ((AppState.mk 7000 450 45 3000 5 1000 2 InflectionText.empty
          Unit.metric).length / 2)) =
    v3piece2 (AppState.mk 7000 450 45 3000 5 1000 2 InflectionText.empty
        Unit.metric)
      (getInflectionDist (AppState.mk 7000 450 45 3000 5 1000 2
        InflectionText.empty Unit.metric)
        ((AppState.mk 7000 450 45 3000 5 1000 2 InflectionText.empty
          Unit.metric).length / 2)) :=
  ⟨((piecewise_c1_continuity (AppState.mk 7000 450 45 3000 5 1000 2
      InflectionText.empty Unit.metric) (by norm_num)).1
      (by norm_num [getInflectionDist, overrideValue, getInflectionDistAuto, min_def])
      (by norm_num [getInflectionDist, overrideValue, getInflectionDistAuto,
        min_def])).1.1,
   ((piecewise_c1_continuity (AppState.mk 7000 450 45 3000 5 1000 2
      InflectionText.empty Unit.metric) (by norm_num)).2
      (by norm_num [getInflectionDist, overrideValue, getInflectionDistAuto, min_def])
      (by norm_num [getInflectionDist, overrideValue, getInflectionDistAuto,
        min_def])).1⟩

/-- For nonnegative dividend and positive divisor, the JavaScript remainder
is the floor remainder: nonnegative, below the divisor, and complementary to
`spacing · ⌊length / spacing⌋`. -/
theorem jsMod_nonneg_lt (a b : ℚ) (ha : 0 ≤ a) (hb : 0 < b) :
    0 ≤ jsMod a b ∧ jsMod a b < b ∧ b * (⌊a / b⌋ : ℚ) + jsMod a b = a := by
  have hq : 0 ≤ a / b := div_nonneg ha hb.le
  have htr : jsTrunc (a / b) = ⌊a / b⌋ := if_pos hq
  have hfl : (⌊a / b⌋ : ℚ) ≤ a / b := Int.floor_le (a / b)
  have hfu : a / b < (⌊a / b⌋ : ℚ) + 1 := Int.lt_floor_add_one (a / b)
  have hba : b * (a / b) = a := mul_div_cancel₀ a hb.ne'
  unfold jsMod
  rw [htr]
  refine ⟨?_, ?_, by ring⟩
  · nlinarith
  · nlinarith

/-- Bounds on the split `s1`: with `spacing ≥ 2` and `totalStart > spacing`,
the first split segment is strictly positive and strictly below
`totalStart` (so the residual `s2` is positive too). -/
theorem splitS1_bounds (u : Unit) (spacing totalStart : ℚ) (h2 : 2 ≤ spacing)
    (hts : spacing < totalStart) :
    0 < splitS1 u spacing totalStart ∧ splitS1 u spacing totalStart < totalStart := by
  have hts2 : 2 < totalStart := lt_of_le_of_lt h2 hts
  unfold splitS1
  split_ifs with hm hmet
  · -- metric, spacing ≈ 1000
    have hsp999 : (999 : ℚ) < spacing := by
      have := abs_lt.mp hm.2
      linarith [this.1]
    have hts999 : (999 : ℚ) < totalStart := lt_trans hsp999 hts
    have hfl4 : (4 : ℤ) ≤ ⌊totalStart / 200⌋ := by
      apply Int.le_floor.mpr
      rw [le_div_iff (by norm_num : (0:ℚ) < 200)]
      push_cast
      linarith
    have hfle : (⌊totalStart / 200⌋ : ℚ) ≤ totalStart / 200 := Int.floor_le _
    constructor
    · unfold jsFloor
      have : (4 : ℚ) ≤ (⌊totalStart / 200⌋ : ℚ) := by exact_mod_cast hfl4
      nlinarith
    · unfold jsFloor
      nlinarith
  · -- metric, general even split
    have hfl1 : (1 : ℤ) ≤ ⌊totalStart / 2⌋ := by
      apply Int.le_floor.mpr
      rw [le_div_iff (by norm_num : (0:ℚ) < 2)]
      push_cast
      linarith
    have hfle : (⌊totalStart / 2⌋ : ℚ) ≤ totalStart / 2 := Int.floor_le _
    constructor
    · unfold jsFloor
      have : (1 : ℚ) ≤ (⌊totalStart / 2⌋ : ℚ) := by exact_mod_cast hfl1
      linarith
    · unfold jsFloor
      linarith
  · -- imperial 2-decimal rounding of the even split
    have hround : (round (totalStart / 2 * 100) : ℚ) ≤ totalStart / 2 * 100 + 1 / 2 := by
      rw [round_eq]
      push_cast
      exact le_trans (Int.floor_le _) (by linarith)
    have hround1 : (100 : ℤ) ≤ round (totalStart / 2 * 100) := by
      rw [round_eq]
      apply Int.le_floor.mpr
      push_cast
      linarith
    constructor
    · unfold toFixed2 jsRound
      have : (100 : ℚ) ≤ (round (totalStart / 2 * 100) : ℚ) := by exact_mod_cast hround1
      nlinarith
    · unfold toFixed2 jsRound
      nlinarith

/-- Nonnegativity version of the `s1` bounds, used for the sampler
invariants: with `0 < spacing`, `spacing < totalStart` and
`0.01 ≤ totalStart`, both split segments are nonnegative. -/
theorem splitS1_nonneg (u : Unit) (spacing totalStart : ℚ) (hsp : 0 < spacing)
    (hts : spacing < totalStart) (h001 : 0.01 ≤ totalStart) :
    0 ≤ splitS1 u spacing totalStart ∧ splitS1 u spacing totalStart ≤ totalStart := by
  have hts0 : 0 < totalStart := lt_trans hsp hts
  unfold splitS1
  split_ifs with hm hmet
  · have hfl0 : (0 : ℤ) ≤ ⌊totalStart / 200⌋ := Int.floor_nonneg.mpr (by positivity)
    have hfle : (⌊totalStart / 200⌋ : ℚ) ≤ totalStart / 200 := Int.floor_le _
    constructor
    · unfold jsFloor
      have : (0 : ℚ) ≤ (⌊totalStart / 200⌋ : ℚ) := by exact_mod_cast hfl0
      nlinarith
    · unfold jsFloor
      nlinarith
  · have hfl0 : (0 : ℤ) ≤ ⌊totalStart / 2⌋ := Int.floor_nonneg.mpr (by positivity)
    have hfle : (⌊totalStart / 2⌋ : ℚ) ≤ totalStart / 2 := Int.floor_le _
    constructor
    · unfold jsFloor
      exact_mod_cast hfl0
    · unfold jsFloor
      linarith
  · have hround : (round (totalStart / 2 * 100) : ℚ) ≤ totalStart / 2 * 100 + 1 / 2 := by
      rw [round_eq]
      push_cast
      exact le_trans (Int.floor_le _) (by linarith)
    have hround0 : (0 : ℤ) ≤ round (totalStart / 2 * 100) := by
      rw [round_eq]
      apply Int.le_floor.mpr
      push_cast
      positivity
    constructor
    · unfold toFixed2 jsRound
      have : (0 : ℚ) ≤ (round (totalStart / 2 * 100) : ℚ) := by exact_mod_cast hround0
      linarith
    · unfold toFixed2 jsRound
      nlinarith

/-- C2 (amended): for `2 ≤ spacing ≤ length` and a remainder not within the
`0.01` snap tolerance of `spacing`, every emitted segment is strictly
positive and the segments sum to `length` within `1` unit. -/
theorem calculateSpaces_pos_sum (length spacing : ℚ) (unit : Unit)
    (h2 : 2 ≤ spacing) (hsl : spacing ≤ length)
    (hrem : ¬ |jsMod length spacing - spacing| < 0.01) :
    (∀ s ∈ calculateSpaces length spacing unit, 0 < s) ∧
    |(calculateSpaces length spacing unit).sum - length| ≤ 1 := by
  have hsp : 0 < spacing := lt_of_lt_of_le (by norm_num) h2
  have hlen : 0 < length := lt_of_lt_of_le hsp hsl
  obtain ⟨hr0, hrlt, hkey⟩ := jsMod_nonneg_lt length spacing hlen.le hsp
  have hq1 : 1 ≤ ⌊length / spacing⌋ := by
    apply Int.le_floor.mpr
    rw [le_div_iff hsp]
    push_cast
    linarith
  have hcast : (((⌊length / spacing⌋).toNat : ℕ) : ℚ) = ((⌊length / spacing⌋ : ℤ) : ℚ) := by
    have := Int.toNat_of_nonneg (le_trans zero_le_one hq1)
    exact_mod_cast congrArg (fun z : ℤ => (z : ℚ)) this
  simp only [calculateSpaces]
  rw [if_neg (by push_neg; exact ⟨hlen, hsp⟩)]
  by_cases hA : jsMod length spacing < 0.01 ∨ |jsMod length spacing - spacing| < 0.01
  · rw [if_pos hA]
    have hr001 : jsMod length spacing < 0.01 := hA.resolve_right hrem
    constructor
    · intro s hs
      rw [List.eq_of_mem_replicate hs]
      exact hsp
    · rw [List.sum_replicate, nsmul_eq_mul, hcast]
      have hdiff : ((⌊length / spacing⌋ : ℤ) : ℚ) * spacing - length = -(jsMod length spacing) := by
        linarith [hkey]
      rw [hdiff, abs_neg, abs_of_nonneg hr0]
      linarith
  · rw [if_neg hA]
    push_neg at hA
    obtain ⟨hAr, _⟩ := hA
    by_cases hB : 0.7 * spacing ≤ jsMod length spacing
    · rw [if_pos hB]
      constructor
      · intro s hs
        rcases List.mem_cons.mp hs with rfl | hs'
        · linarith
        · rw [List.eq_of_mem_replicate hs']
          exact hsp
      · rw [List.sum_cons, List.sum_replicate, nsmul_eq_mul, hcast]
        have : jsMod length spacing + ((⌊length / spacing⌋ : ℤ) : ℚ) * spacing - length = 0 := by
          linarith [hkey]
        rw [this]
        norm_num
    · rw [if_neg hB]
      have hts : spacing < spacing + jsMod length spacing := by linarith [hAr]
      obtain ⟨hs1pos, hs1lt⟩ := splitS1_bounds unit spacing (spacing + jsMod length spacing) h2 hts
      have hcastsub : (((⌊length / spacing⌋).toNat - 1 : ℕ) : ℚ) =
          ((⌊length / spacing⌋ : ℤ) : ℚ) - 1 := by
        have h1n : 1 ≤ (⌊length / spacing⌋).toNat := by
          omega
        push_cast [Nat.cast_sub h1n]
        rw [hcast]
      constructor
      · intro s hs
        rcases List.mem_cons.mp hs with rfl | hs'
        · exact hs1pos
        · rcases List.mem_cons.mp hs' with rfl | hs''
          · linarith
          · rw [List.eq_of_mem_replicate hs'']
            exact hsp
      · rw [List.sum_cons, List.sum_cons, List.sum_replicate, nsmul_eq_mul, hcastsub]
        have : splitS1 unit spacing (spacing + jsMod length spacing) +
            (spacing + jsMod length spacing -
              splitS1 unit spacing (spacing + jsMod length spacing) +
              (((⌊length / spacing⌋ : ℤ) : ℚ) - 1) * spacing) - length = 0 := by
          linarith [hkey]
        rw [this]
        norm_num

/-- C2 counterexample: `calculateSpaces 500 1000 metric = [700, 800]` sums to
`1500`, which is not within `1` unit of the requested length `500` — refuting
the claimed segment-sum property at `length = 500 > 0`, `spacing = 1000 > 0`. -/
theorem calculateSpaces_sum_cex :
    calculateSpaces 500 1000 Unit.metric = [700, 800] ∧
    ¬ |(calculateSpaces 500 1000 Unit.metric).sum - 500| ≤ 1 := by
  have h : calculateSpaces 500 1000 Unit.metric = [700, 800] := by
    norm_num [calculateSpaces, splitS1, jsMod, jsTrunc, jsFloor]
  refine ⟨h, ?_⟩
  rw [h]
  norm_num

/-- C2 witness: positivity and the exact sum on the scenario-B input. -/
theorem calculateSpaces_pos_sum_witness :
    (∀ s ∈ calculateSpaces 5700 1000 Unit.metric, 0 < s) ∧
    |(calculateSpaces 5700 1000 Unit.metric).sum - 5700| ≤ 1 :=
  calculateSpaces_pos_sum 5700 1000 Unit.metric (by norm_num) (by norm_num)
    (by norm_num [jsMod, jsTrunc])

/-- Every segment emitted by the distributor is nonnegative. -/
theorem calculateSpaces_nonneg (length spacing : ℚ) (unit : Unit) :
    ∀ s ∈ calculateSpaces length spacing unit, 0 ≤ s := by
  intro s hs
  by_cases hg : length ≤ 0 ∨ spacing ≤ 0
  · simp [calculateSpaces, hg] at hs
  · have hg' := hg
    push_neg at hg'
    obtain ⟨hlen, hsp⟩ := hg'
    obtain ⟨hr0, hrlt, hkey⟩ := jsMod_nonneg_lt length spacing hlen.le hsp
    simp only [calculateSpaces] at hs
    rw [if_neg hg] at hs
    split_ifs at hs with h1 h2
    · rw [List.eq_of_mem_replicate hs]
      exact hsp.le
    · rcases List.mem_cons.mp hs with rfl | hs'
      · exact hr0
      · rw [List.eq_of_mem_replicate hs']
        exact hsp.le
    · push_neg at h1
      have h001 : (0.01 : ℚ) ≤ jsMod length spacing := h1.1
      have hts : spacing < spacing + jsMod length spacing := by linarith
      have htot : (0.01 : ℚ) ≤ spacing + jsMod length spacing := by linarith
      obtain ⟨ha, hb⟩ :=
        splitS1_nonneg unit spacing (spacing + jsMod length spacing) hsp hts htot
      rcases List.mem_cons.mp hs with rfl | hs'
      · exact ha
      · rcases List.mem_cons.mp hs' with rfl | hs''
        · linarith
        · rw [List.eq_of_mem_replicate hs'']
          exact hsp.le

/-- One accumulation step keeps the abscissa between its previous value and
`length` (for a nonnegative segment, starting at or below `length`). -/
theorem stepX_bounds (L x0 s : ℚ) (hxL : x0 ≤ L) (hs0 : 0 ≤ s) :
    x0 ≤ stepX L x0 s ∧ stepX L x0 s ≤ L := by
  simp only [stepX]
  split_ifs with hc
  · exact ⟨hxL, le_refl L⟩
  · push_neg at hc
    exact ⟨by linarith, by linarith⟩

/-- All abscissae produced by the loop stay in `[x0, length]`. -/
theorem samplePointsAux_bounds (st : AppState) :
    ∀ (sp : List ℚ) (x0 : ℚ), x0 ≤ st.length → (∀ s ∈ sp, 0 ≤ s) →
      ∀ p ∈ samplePointsAux st x0 sp, x0 ≤ p.x ∧ p.x ≤ st.length := by
  intro sp
  induction sp with
  | nil =>
    intro x0 _ _ p hp
    simp [samplePointsAux] at hp
  | cons s rest ih =>
    intro x0 hxL hsnn p hp
    have hs0 : 0 ≤ s := hsnn s (List.mem_cons_self s rest)
    have hstep := stepX_bounds st.length x0 s hxL hs0
    simp only [samplePointsAux] at hp
    rcases List.mem_cons.mp hp with rfl | hp'
    · exact hstep
    · have hrec := ih (stepX st.length x0 s) hstep.2
        (fun s' hs' => hsnn s' (List.mem_cons_of_mem s hs')) p hp'
      exact ⟨le_trans hstep.1 hrec.1, hrec.2⟩

/-- The abscissae produced by the loop are non-decreasing, starting from any
point whose abscissa is the loop's accumulator. -/
theorem samplePointsAux_chain (st : AppState) :
    ∀ (sp : List ℚ) (x0 : ℚ), x0 ≤ st.length → (∀ s ∈ sp, 0 ≤ s) →
      ∀ p : Point, p.x = x0 →
        List.Chain' (fun a b : Point => a.x ≤ b.x) (p :: samplePointsAux st x0 sp) := by
  intro sp
  induction sp with
  | nil =>
    intro x0 _ _ p _
    simp [samplePointsAux]
  | cons s rest ih =>
    intro x0 hxL hsnn p hpx
    have hs0 : 0 ≤ s := hsnn s (List.mem_cons_self s rest)
    have hstep := stepX_bounds st.length x0 s hxL hs0
    simp only [samplePointsAux]
    refine List.chain'_cons.mpr ⟨?_, ?_⟩
    · rw [hpx]
      exact hstep.1
    · exact ih (stepX st.length x0 s) hstep.2
        (fun s' hs' => hsnn s' (List.mem_cons_of_mem s hs'))
        ⟨stepX st.length x0 s, calculateY st (stepX st.length x0 s),
          roundValue st (calculateY st (stepX st.length x0 s))⟩ rfl

/-- C6 (amended): for positive length and spacing, the sample list starts at
`x = 0` and its final abscissa lies within `1` unit of `x = length`.  (Exact
termination at `x = length` fails when the distributor's shortfall lies
between the `0.001` clamp window and the `1`-unit safety-net threshold.) -/
theorem sampler_endpoints (st : AppState) (_hL : 0 < st.length)
    (_hsp : 0 < st.spacing) :
    ((calculateProfile st).points.headD ⟨0, 0, 0⟩).x = 0 ∧
    |((calculateProfile st).points.getLastD ⟨0, 0, 0⟩).x - st.length| ≤ 1 := by
  rw [calculateProfile_points]
  by_cases hc : 1 < |((rawPoints st).getLastD ⟨0, 0, 0⟩).x - st.length|
  · rw [if_pos hc]
    constructor
    · rfl
    · rw [List.getLastD_concat]
      simp [endPoint]
  · rw [if_neg hc]
    exact ⟨rfl, not_lt.mp hc⟩

/-- C6 counterexample: with `length = 7.005` and `spacing = 1` the exact-
multiple snap discards the `0.005` remainder; the loop stops at `x = 7`,
which is too far from the end for the `0.001` clamp yet too close for the
`1`-unit safety net, so the last sample is not at `x = length`. -/
theorem sampler_last_cex :
    ((calculateProfile (AppState.mk 7.005 0 0 1 1 1 1 InflectionText.empty
        Unit.metric)).points.getLastD ⟨0, 0, 0⟩).x ≠
      (AppState.mk 7.005 0 0 1 1 1 1 InflectionText.empty Unit.metric).length := by
  have hsp : calculateSpaces (1401 / 200 : ℚ) 1 Unit.metric = [1, 1, 1, 1, 1, 1, 1] := by
    norm_num [calculateSpaces, jsMod, jsTrunc]
    decide
  have hpts : rawPoints (AppState.mk 7.005 0 0 1 1 1 1 InflectionText.empty
      Unit.metric) =
      [⟨0, 0, 0⟩, ⟨1, 0, 0⟩, ⟨2, 0, 0⟩, ⟨3, 0, 0⟩, ⟨4, 0, 0⟩, ⟨5, 0, 0⟩,
        ⟨6, 0, 0⟩, ⟨7, 0, 0⟩] := by
    norm_num [rawPoints, startPoint, hsp, samplePointsAux, stepX, calculateY, v1,
      roundValue, jsRound]
  rw [calculateProfile_points, hpts]
  rw [if_neg (by rw [not_lt, abs_le]; norm_num)]
  norm_num [List.getLastD_cons, List.getLastD_nil]

/-- C6 witness: endpoints behaviour on the scenario-A configuration. -/
theorem sampler_endpoints_witness :
    ((calculateProfile (AppState.mk 7000 450 45 3000 5 1000 1
        InflectionText.empty Unit.metric)).points.headD ⟨0, 0, 0⟩).x = 0 ∧
    |((calculateProfile (AppState.mk 7000 450 45 3000 5 1000 1
        InflectionText.empty Unit.metric)).points.getLastD ⟨0, 0, 0⟩).x -
        (AppState.mk 7000 450 45 3000 5 1000 1 InflectionText.empty
          Unit.metric).length| ≤ 1 :=
  sampler_endpoints (AppState.mk 7000 450 45 3000 5 1000 1 InflectionText.empty
    Unit.metric) (by norm_num) (by norm_num)

/-- C10: the point list is never empty and always starts at `x = 0` (also for
degenerate configurations); for a positive span every abscissa lies in
`[0, length]` and the abscissae are non-decreasing. -/
theorem points_invariants (st : AppState) :
    (calculateProfile st).points ≠ [] ∧
    ((calculateProfile st).points.headD ⟨0, 0, 0⟩).x = 0 ∧
    (0 < st.length →
      (∀ p ∈ (calculateProfile st).points, 0 ≤ p.x ∧ p.x ≤ st.length) ∧
      List.Chain' (fun a b : Point => a.x ≤ b.x) (calculateProfile st).points) := by
  have hnn := calculateSpaces_nonneg st.length st.spacing st.unit
  rw [calculateProfile_points]
  by_cases hc : 1 < |((rawPoints st).getLastD ⟨0, 0, 0⟩).x - st.length|
  · rw [if_pos hc]
    refine ⟨by simp [rawPoints], rfl, fun hL => ⟨?_, ?_⟩⟩
    · intro p hp
      rcases List.mem_append.mp hp with hp' | hp'
      · rcases List.mem_cons.mp hp' with rfl | hp''
        · exact ⟨le_refl 0, hL.le⟩
        · exact samplePointsAux_bounds st _ 0 hL.le hnn p hp''
      · rw [List.mem_singleton.mp hp']
        exact ⟨hL.le, le_refl st.length⟩
    · apply List.Chain'.append
      · exact samplePointsAux_chain st _ 0 hL.le hnn (startPoint st) rfl
      · exact List.chain'_singleton (endPoint st)
      · intro x hx y hy
        rw [List.head?_cons, Option.mem_some_iff] at hy
        subst hy
        have hxmem : x ∈ rawPoints st := List.mem_of_mem_getLast? hx
        rcases List.mem_cons.mp hxmem with rfl | hx'
        · exact hL.le
        · exact (samplePointsAux_bounds st _ 0 hL.le hnn x hx').2
  · rw [if_neg hc]
    refine ⟨by simp [rawPoints], rfl, fun hL => ⟨?_, ?_⟩⟩
    · intro p hp
      rcases List.mem_cons.mp hp with rfl | hp'
      · exact ⟨le_refl 0, hL.le⟩
      · exact samplePointsAux_bounds st _ 0 hL.le hnn p hp'
    · exact samplePointsAux_chain st _ 0 hL.le hnn (startPoint st) rfl

/-- C10 witness: the positive-span invariants on the scenario-A
configuration. -/
theorem points_invariants_witness :
    (∀ p ∈ (calculateProfile (AppState.mk 7000 450 45 3000 5 1000 1
        InflectionText.empty Unit.metric)).points,
      0 ≤ p.x ∧ p.x ≤ (AppState.mk 7000 450 45 3000 5 1000 1
        InflectionText.empty Unit.metric).length) ∧
    List.Chain' (fun a b : Point => a.x ≤ b.x)
      (calculateProfile (AppState.mk 7000 450 45 3000 5 1000 1
        InflectionText.empty Unit.metric)).points :=
  (points_invariants (AppState.mk 7000 450 45 3000 5 1000 1
    InflectionText.empty Unit.metric)).2.2 (by norm_num)

end TendonProfile
